import Mathlib

/-!
Verification development for the ace-subsystem polling pipeline.

The Python sources are shallowly embedded as Lean definitions:
floating-point numbers become rationals (ℚ), timestamps become rationals
(seconds on an abstract clock), dataframes become association lists of
named columns, and fallible operations return Option.  Each definition is
translated from the corresponding source function; doc comments name the
source location.
-/

/-! ### Configuration parsing (src/config.py) -/

/-- Python single-character string split (str.split(sep)): splitting an
empty string yields one empty field, separators delimit fields, empty
fields are kept. -/
def splitOnChar (sep : Char) : List Char → List (List Char)
  | [] => [[]]
  | c :: cs =>
    match splitOnChar sep cs with
    | [] => [[c]]
    | t :: ts => if c = sep then [] :: t :: ts else (c :: t) :: ts

/-- Python str.strip(): remove leading and trailing whitespace. -/
def trimChars (s : List Char) : List Char :=
  ((s.dropWhile Char.isWhitespace).reverse.dropWhile Char.isWhitespace).reverse

/-- Python str.strip() lifted to String. -/
def strip (s : String) : String := ⟨trimChars s.data⟩

/-- Python str.split(sep) for a one-character separator, lifted to String. -/
def splitOnCh (sep : Char) (s : String) : List String :=
  (splitOnChar sep s.data).map (fun l => ⟨l⟩)

/-- Body of the loop in parse_tag_pairs (src/config.py lines 11-17): strip
the entry, split on a colon; Python unpacking (k, v = ...) succeeds exactly
when the split has two fields, otherwise ValueError is caught and the entry
is skipped (modelled as none). -/
def parseEntry (entry : String) : Option (String × String) :=
  match splitOnCh ':' (strip entry) with
  | [k, v] => some (strip k, strip v)
  | _ => none

/-- parse_tag_pairs (src/config.py lines 3-23): return [] when the input is
blank, otherwise split on commas and keep the entries that parse. -/
def parse_tag_pairs (env : String) : List (String × String) :=
  if strip env = "" then []
  else (splitOnCh ',' env).filterMap parseEntry

/-! ### Sensor fetch (src/fetcher.py) -/

/-- JSON value as decoded by Python's response.json(); obj models a Python
dict (keys unique, insertion-ordered). -/
inductive JVal where
  | num : ℚ → JVal
  | str : String → JVal
  | obj : List (String × JVal) → JVal
  | arr : List JVal → JVal
  | null : JVal

/-- An HTTP response as seen by fetch_sensor_data: a status code and the
decoded JSON body (none when response.json() would raise). -/
structure Response where
  status : Nat
  body : Option JVal

/-- Python dict .get on the decoded object. -/
def lookupField (fields : List (String × JVal)) (key : String) : Option JVal :=
  (fields.find? (fun p => p.1 == key)).map Prod.snd

/-- Conversion of the tag's JSON value to the (Timestamp, Value) rows of
the returned dataframe (src/fetcher.py lines 34-35): data.items() requires
a dict (anything else raises AttributeError), and pd.to_datetime must
parse every timestamp key (tsParse models the timestamp parser; a single
unparseable key raises, so the whole conversion fails). -/
def toSeries (tsParse : String → Option ℚ) : JVal → Option (List (ℚ × JVal))
  | .obj fields => fields.mapM (fun kv => (tsParse kv.1).map (fun t => (t, kv.2)))
  | _ => none

/-- fetch_sensor_data (src/fetcher.py lines 14-42).  The network call is
modelled by its outcome resp: none when requests.get raises.  Any
exception inside the try block is caught and the function returns None
(here: none).  On status 200 the body is decoded, the tag is looked up
with default {} and converted to rows. -/
def fetch_sensor_data (tsParse : String → Option ℚ) (tag : String)
    (resp : Option Response) : Option (List (ℚ × JVal)) :=
  match resp with
  | none => none
  | some r =>
    if r.status = 200 then
      match r.body with
      | none => none
      | some j =>
        match j with
        | .obj fields => toSeries tsParse ((lookupField fields tag).getD (.obj []))
        | _ => none
    else none

/-! ### Anomaly detection (src/detector.py) -/

/-- One pandas column: numeric (float) data or boolean data. -/
inductive ColData where
  | fcol : List ℚ → ColData
  | bcol : List Bool → ColData
deriving DecidableEq, Repr

/-- A pandas DataFrame modelled as an ordered association list of named
columns. -/
abbrev DataFrame := List (String × ColData)

/-- Column lookup (first match, as pandas column names are unique). -/
def getCol (df : DataFrame) (c : String) : Option ColData :=
  (df.find? (fun p => p.1 == c)).map Prod.snd

/-- Column-name membership test (pandas: c in df.columns). -/
def hasCol (df : DataFrame) (c : String) : Bool :=
  (getCol df c).isSome

/-- Column assignment df[c] = v: replace an existing column in place,
otherwise append a new column at the end (pandas semantics). -/
def setCol (df : DataFrame) (c : String) (v : ColData) : DataFrame :=
  if hasCol df c then df.map (fun p => if p.1 == c then (c, v) else p)
  else df ++ [(c, v)]

/-- Number of rows held by a column. -/
def colLen : ColData → Nat
  | .fcol l => l.length
  | .bcol l => l.length

/-- Column names generated by the detector for a tag pair. -/
def spCol (t : String) : String := "SetPoint_" ++ t

/-- Actual-value column name for a tag. -/
def pvCol (t : String) : String := "Actual_" ++ t

/-- Error column name for a setpoint tag. -/
def errCol (t : String) : String := "Error_" ++ t

/-- Anomaly column name for a setpoint tag. -/
def anomCol (t : String) : String := "Anomaly_" ++ t

/-- Pandas Series.mean: sum divided by length (the empty case, NaN in
pandas, never feeds a kept flag because the table then has no rows). -/
def seriesMean (l : List ℚ) : ℚ := l.sum / l.length

/-- Pandas Series.std squared, i.e. the sample variance with ddof = 1:
none models the NaN produced for fewer than 2 values. -/
def sampleVar (l : List ℚ) : Option ℚ :=
  if l.length < 2 then none
  else some ((l.map (fun x => (x - seriesMean l) ^ 2)).sum / ((l.length : ℚ) - 1))

/-- One row's anomaly flag (src/detector.py line 33):
np.abs(err - mean) > k * std.  std is the square root of the sample
variance; for the nonnegative multiplier k the comparison
|e - m| > k * sqrt v is equivalent to (e - m)^2 > k^2 * v, which is the
form used here so the flag stays computable over ℚ (the equivalence is
proved against Real.sqrt in the theorems below).  A NaN std (variance
none) makes the numpy comparison False. -/
def anomalyFlag (k m : ℚ) (v : Option ℚ) (e : ℚ) : Bool :=
  match v with
  | none => false
  | some vv => decide ((e - m) ^ 2 > k ^ 2 * vv)

/-- Body of the per-pair branch of detect_anomalies (src/detector.py lines
20-37): when both the SetPoint and Actual columns are present, write the
error column, compute mean and std of it, write the anomaly column, and
report whether any row was flagged; otherwise leave the frame unchanged
and report False. -/
def detectPair (k : ℚ) (df : DataFrame) (sp pv : String) : DataFrame × Bool :=
  match getCol df (spCol sp), getCol df (pvCol pv) with
  | some (.fcol sps), some (.fcol pvs) =>
    let errs := List.zipWith (fun a b => a - b) sps pvs
    let flags := errs.map (anomalyFlag k (seriesMean errs) (sampleVar errs))
    (setCol (setCol df (errCol sp) (.fcol errs)) (anomCol sp) (.bcol flags),
     flags.any id)
  | _, _ => (df, false)

/-- detect_anomalies (src/detector.py lines 11-43): fold detectPair over
the configured tag pairs, collecting the per-pair any-anomaly flags (the
Python dict keyed by setpoint tag becomes an ordered list). -/
def detect_anomalies (k : ℚ) (pairs : List (String × String)) (df : DataFrame) :
    DataFrame × List (String × Bool) :=
  match pairs with
  | [] => (df, [])
  | p :: ps =>
    let r := detectPair k df p.1 p.2
    let rest := detect_anomalies k ps r.1
    (rest.1, (p.1, r.2) :: rest.2)

/-- Specification of the two columns the detector adds for one tag pair
whose SetPoint and Actual columns are present: the error column (setpoint
minus actual) and its anomaly flags; nothing when either source column is
missing.  Used to state the frame theorems about detect_anomalies. -/
def pairNewCols (k : ℚ) (df : DataFrame) (sp pv : String) : DataFrame :=
  match getCol df (spCol sp), getCol df (pvCol pv) with
  | some (.fcol sps), some (.fcol pvs) =>
    [(errCol sp, .fcol (List.zipWith (fun a b => a - b) sps pvs)),
     (anomCol sp, .bcol ((List.zipWith (fun a b => a - b) sps pvs).map
       (anomalyFlag k (seriesMean (List.zipWith (fun a b => a - b) sps pvs))
         (sampleVar (List.zipWith (fun a b => a - b) sps pvs)))))]
  | _, _ => []

/-! ### Rolling buffer persistence (src/main.py lines 86-99) -/

/-- One persisted row of a pair's rolling-buffer CSV: the timestamp and an
abstract payload standing for the remaining column values. -/
structure Row where
  ts : ℚ
  val : ℚ
deriving DecidableEq, Repr

/-- Timestamp ordering used by sort_values("Timestamp"). -/
def tsle (a b : Row) : Prop := a.ts ≤ b.ts

instance : DecidableRel tsle := fun a b => inferInstanceAs (Decidable (a.ts ≤ b.ts))

instance : IsTotal Row tsle := ⟨fun a b => le_total a.ts b.ts⟩

instance : IsTrans Row tsle := ⟨fun _ _ _ h1 h2 => le_trans h1 h2⟩

/-- Strict timestamp ordering (distinct, increasing timestamps). -/
def tslt (a b : Row) : Prop := a.ts < b.ts

instance : DecidableRel tslt := fun a b => inferInstanceAs (Decidable (a.ts < b.ts))

instance : IsAntisymm Row tslt := ⟨fun _ _ h1 h2 => absurd (lt_trans h1 h2) (lt_irrefl _)⟩

/-- df.sort_values("Timestamp"): sort rows by timestamp. -/
def sortByTs (l : List Row) : List Row := List.insertionSort tsle l

/-- drop_duplicates(subset=["Timestamp"], keep="last"): a row is kept
exactly when no later row carries the same timestamp; the kept rows stay
in their original order. -/
def dedupKeepLast : List Row → List Row
  | [] => []
  | r :: rs =>
    if rs.any (fun s => s.ts == r.ts) then dedupKeepLast rs
    else r :: dedupKeepLast rs

/-- The rolling-buffer update of src/main.py lines 86-98 for one tag pair.
existing is the persisted file contents (none when the file is missing,
raising FileNotFoundError on read).  When the file exists it is read
sorted by timestamp, its first (oldest) row is dropped and the last row of
the freshly computed batch is appended (df_existing.iloc[1:] concatenated
with df.iloc[[-1]], applied only when the batch is nonempty); on a missing
file the whole batch is taken.  The result is deduplicated by timestamp
keeping the last occurrence, rows older than the cutoff are discarded, and
the rest is sorted by timestamp and persisted. -/
def bufferUpdate (cutoff : ℚ) (existing : Option (List Row)) (batch : List Row) :
    List Row :=
  let base :=
    match existing with
    | some e =>
      let es := sortByTs e
      match batch.getLast? with
      | some b => es.drop 1 ++ [b]
      | none => es
    | none => batch
  sortByTs ((dedupKeepLast base).filter (fun r => cutoff ≤ r.ts))

/-! ### Time alignment (src/main.py lines 70-82) -/

/-- One fetched sample: timestamp and value. -/
structure Sample where
  ts : ℚ
  val : ℚ
deriving DecidableEq, Repr

/-- One row of the merged frame: the setpoint sample's timestamp and
value, and the matched actual value (none models the NaN that merge_asof
leaves on an unmatched left row). -/
structure MRow where
  ts : ℚ
  sp : ℚ
  pv : Option ℚ
deriving DecidableEq, Repr

/-- Sample ordering by timestamp for sort_values. -/
def smple (a b : Sample) : Prop := a.ts ≤ b.ts

instance : DecidableRel smple := fun a b => inferInstanceAs (Decidable (a.ts ≤ b.ts))

instance : IsTotal Sample smple := ⟨fun a b => le_total a.ts b.ts⟩

instance : IsTrans Sample smple := ⟨fun _ _ _ h1 h2 => le_trans h1 h2⟩

/-- df.sort_values("Timestamp") on a fetched series. -/
def sortSamples (l : List Sample) : List Sample := List.insertionSort smple l

/-- The nearest right-hand sample to time t: minimal |ts - t|, earlier
sample preferred on a tie (pandas merge_asof direction="nearest" resolves
ties backward). -/
def nearestSample (rights : List Sample) (t : ℚ) : Option Sample :=
  rights.foldl (fun acc r =>
    match acc with
    | none => some r
    | some c => if |r.ts - t| < |c.ts - t| then some r else some c) none

/-- Nearest match subject to the merge tolerance: no match when even the
nearest sample is farther than tol. -/
def nearestWithin (tol : ℚ) (rights : List Sample) (t : ℚ) : Option Sample :=
  match nearestSample rights t with
  | some r => if |r.ts - t| ≤ tol then some r else none
  | none => none

/-- pd.merge_asof(df_sp, df_pv, on="Timestamp", direction="nearest",
tolerance=1min) (src/main.py lines 77-79): a left join that keeps every
setpoint row, pairing it with the nearest actual sample within the
tolerance and leaving NaN (none) otherwise; actual samples matched by no
setpoint row do not appear. -/
def mergeAsof (tol : ℚ) (lefts rights : List Sample) : List MRow :=
  lefts.map (fun l => ⟨l.ts, l.val, (nearestWithin tol rights l.ts).map Sample.val⟩)

/-- Latest known value at or before the given index (helper for
interpolation and forward fill). -/
def prevKnown (l : List (Option ℚ)) : Nat → Option (Nat × ℚ)
  | 0 => none
  | j + 1 =>
    match l.get? j with
    | some (some x) => some (j, x)
    | _ => prevKnown l j

/-- First known value of a column together with its index. -/
def firstKnown : List (Option ℚ) → Option (Nat × ℚ)
  | [] => none
  | some x :: _ => some (0, x)
  | none :: rest => (firstKnown rest).map (fun p => (p.1 + 1, p.2))

/-- Earliest known value strictly after the given index. -/
def nextKnown (l : List (Option ℚ)) (i : Nat) : Option (Nat × ℚ) :=
  (firstKnown (l.drop (i + 1))).map (fun p => (i + 1 + p.1, p.2))

/-- Series.interpolate() with the default linear method: a missing value
strictly between two known values is filled by position-weighted linear
interpolation; runs with no known value on one side are left missing here
(the pipeline immediately applies bfill and ffill, which subsume
interpolate's handling of leading and trailing gaps). -/
def interpolateCol (l : List (Option ℚ)) : List (Option ℚ) :=
  (List.range l.length).map (fun i =>
    match l.get? i with
    | some (some x) => some x
    | some none =>
      match prevKnown l i, nextKnown l i with
      | some (j, a), some (j2, b) =>
        some (a + (b - a) * ((i : ℚ) - (j : ℚ)) / ((j2 : ℚ) - (j : ℚ)))
      | _, _ => none
    | none => none)

/-- Series.ffill(): propagate the last known value forward. -/
def ffillCol : List (Option ℚ) → List (Option ℚ) :=
  go none
where
  /-- carry holds the last value seen so far. -/
  go (carry : Option ℚ) : List (Option ℚ) → List (Option ℚ)
    | [] => []
    | some x :: rest => some x :: go (some x) rest
    | none :: rest => carry :: go carry rest

/-- Series.bfill(): propagate the next known value backward. -/
def bfillCol (l : List (Option ℚ)) : List (Option ℚ) :=
  (ffillCol l.reverse).reverse

/-- MRow ordering by timestamp. -/
def mrle (a b : MRow) : Prop := a.ts ≤ b.ts

instance : DecidableRel mrle := fun a b => inferInstanceAs (Decidable (a.ts ≤ b.ts))

instance : IsTotal MRow mrle := ⟨fun a b => le_total a.ts b.ts⟩

instance : IsTrans MRow mrle := ⟨fun _ _ _ h1 h2 => le_trans h1 h2⟩

/-- Alignment of one tag pair (src/main.py lines 75-82): sort both series,
merge with merge_asof (nearest, 1-minute tolerance), then
df.sort_values("Timestamp").interpolate().bfill().ffill() — the fills act
on the actual-value column, the only one carrying missing values. -/
def alignPair (tol : ℚ) (lefts rights : List Sample) : List MRow :=
  let merged := List.insertionSort mrle
    (mergeAsof tol (sortSamples lefts) (sortSamples rights))
  let filled := ffillCol (bfillCol (interpolateCol (merged.map MRow.pv)))
  List.zipWith (fun (r : MRow) p => ⟨r.ts, r.sp, p⟩) merged filled

/-! ### Per-pair cycle step (src/main.py lines 59-108) -/

/-- One iteration of the tag-pair loop in main (src/main.py lines 59-108),
at the granularity the persisted state sees.  pipe abstracts the
align-detect stage turning the two fetched series into the batch of rows
to persist (detect_anomalies_for_pair is imported by main but not part of
these sources).  The state is the pair's buffer file: none when absent.
When either fetch returns None the loop logs and continues — the state is
returned untouched; likewise when either series is empty.  Otherwise the
buffer update runs and its result is written back. -/
def processPair (cutoff : ℚ)
    (pipe : List (ℚ × JVal) → List (ℚ × JVal) → List Row)
    (fsp fpv : Option (List (ℚ × JVal)))
    (prior : Option (List Row)) : Option (List Row) :=
  match fsp, fpv with
  | some dsp, some dpv =>
    if dsp.isEmpty || dpv.isEmpty then prior
    else some (bufferUpdate cutoff prior (pipe dsp dpv))
  | _, _ => prior

/-- Aligned rows a pair contributes in one cycle: none on a skip. -/
def pairAlignedRows (pipe : List (ℚ × JVal) → List (ℚ × JVal) → List Row)
    (fsp fpv : Option (List (ℚ × JVal))) : List Row :=
  match fsp, fpv with
  | some dsp, some dpv =>
    if dsp.isEmpty || dpv.isEmpty then [] else pipe dsp dpv
  | _, _ => []

/-- One full cycle of main's loop over the configured pairs: every pair is
processed in order, each with its own fetches (modelled by net, the
network outcome per tag) and its own buffer file. -/
def runCycle (cutoff : ℚ)
    (pipe : List (ℚ × JVal) → List (ℚ × JVal) → List Row)
    (tsParse : String → Option ℚ) (net : String → Option Response)
    (priors : String × String → Option (List Row))
    (pairs : List (String × String)) : List (Option (List Row)) :=
  pairs.map (fun p =>
    processPair cutoff pipe
      (fetch_sensor_data tsParse p.1 (net p.1))
      (fetch_sensor_data tsParse p.2 (net p.2))
      (priors p))

/-! ### Lemmas about the rolling buffer -/

/-- Sorting preserves membership. -/
theorem mem_sortByTs {r : Row} {l : List Row} : r ∈ sortByTs l ↔ r ∈ l :=
  (List.perm_insertionSort tsle l).mem_iff

/-- sortByTs sorts with respect to the timestamp order. -/
theorem sortByTs_sorted (l : List Row) : List.Sorted tsle (sortByTs l) :=
  List.sorted_insertionSort tsle l

/-- sortByTs permutes its input. -/
theorem sortByTs_perm (l : List Row) : List.Perm (sortByTs l) l :=
  List.perm_insertionSort tsle l

/-- A list sorted by timestamp is left unchanged by sortByTs. -/
theorem sortByTs_eq_self {l : List Row} (h : List.Sorted tsle l) : sortByTs l = l :=
  List.Sorted.insertionSort_eq h

/-- Deduplicated output only contains input rows. -/
theorem mem_of_mem_dedupKeepLast : ∀ {l : List Row} {r : Row},
    r ∈ dedupKeepLast l → r ∈ l
  | [], _, h => by simp [dedupKeepLast] at h
  | x :: xs, r, h => by
    unfold dedupKeepLast at h
    split at h
    · exact List.mem_cons_of_mem x (mem_of_mem_dedupKeepLast h)
    · rcases List.mem_cons.mp h with h1 | h1
      · exact h1 ▸ List.mem_cons_self x xs
      · exact List.mem_cons_of_mem x (mem_of_mem_dedupKeepLast h1)

/-- Deduplication leaves pairwise distinct timestamps. -/
theorem dedupKeepLast_pairwise_ne : ∀ l : List Row,
    List.Pairwise (fun a b => a.ts ≠ b.ts) (dedupKeepLast l)
  | [] => by simp [dedupKeepLast]
  | x :: xs => by
    unfold dedupKeepLast
    split
    · exact dedupKeepLast_pairwise_ne xs
    · rename_i hany
      refine List.Pairwise.cons ?_ (dedupKeepLast_pairwise_ne xs)
      intro s hs
      have hsx : s ∈ xs := mem_of_mem_dedupKeepLast hs
      have := List.any_eq_false.mp (Bool.not_eq_true _ ▸ hany) s hsx
      intro hts
      exact this (by simp [hts])

/-- A list with pairwise distinct timestamps has no duplicates to drop. -/
theorem dedupKeepLast_eq_self : ∀ {l : List Row},
    List.Pairwise (fun a b => a.ts ≠ b.ts) l → dedupKeepLast l = l
  | [], _ => rfl
  | x :: xs, h => by
    unfold dedupKeepLast
    have hx : ∀ s ∈ xs, x.ts ≠ s.ts := fun s hs => List.rel_of_pairwise_cons h hs
    have hany : xs.any (fun s => s.ts == x.ts) = false := by
      refine List.any_eq_false.mpr ?_
      intro s hs
      simpa using fun he => hx s hs he.symm
    rw [hany]
    simp [dedupKeepLast_eq_self (List.Pairwise.of_cons h)]

/-- The final row of a list always survives keep-last deduplication. -/
theorem getLast_mem_dedupKeepLast : ∀ (xs : List Row) (b : Row),
    b ∈ dedupKeepLast (xs ++ [b])
  | [], b => by simp [dedupKeepLast]
  | x :: xs, b => by
    rw [List.cons_append]
    unfold dedupKeepLast
    split
    · exact getLast_mem_dedupKeepLast xs b
    · exact List.mem_cons_of_mem x (getLast_mem_dedupKeepLast xs b)

/-- After keep-last deduplication of a list ending in b, the only row
carrying b's timestamp is b itself. -/
theorem dedupKeepLast_last_ts_unique : ∀ (xs : List Row) (b r : Row),
    r ∈ dedupKeepLast (xs ++ [b]) → r.ts = b.ts → r = b
  | [], b, r, hr, hts => by
    simp [dedupKeepLast] at hr
    exact hr
  | x :: xs, b, r, hr, hts => by
    rw [List.cons_append] at hr
    unfold dedupKeepLast at hr
    split at hr
    · exact dedupKeepLast_last_ts_unique xs b r hr hts
    · rename_i hany
      rcases List.mem_cons.mp hr with h1 | h1
      · exfalso
        have := List.any_eq_false.mp (Bool.not_eq_true _ ▸ hany) b (by simp)
        rw [h1] at hts
        exact this (by simp [hts])
      · exact dedupKeepLast_last_ts_unique xs b r h1 hts

/-- Keep-last deduplication of a duplicate-free list with one repeated
final row permutes back to the original list. -/
theorem dedupKeepLast_append_mem_perm : ∀ (xs : List Row) (b : Row),
    List.Pairwise (fun a b => a.ts ≠ b.ts) xs → b ∈ xs →
    List.Perm (dedupKeepLast (xs ++ [b])) xs
  | [], b, _, hb => absurd hb (List.not_mem_nil b)
  | x :: xs, b, hpw, hb => by
    rw [List.cons_append]
    unfold dedupKeepLast
    have hx : ∀ s ∈ xs, x.ts ≠ s.ts := fun s hs => List.rel_of_pairwise_cons hpw hs
    rcases List.mem_cons.mp hb with rfl | hbxs
    · have hany : (xs ++ [b]).any (fun s => s.ts == b.ts) = true :=
        List.any_eq_true.mpr ⟨b, by simp⟩
      rw [hany]
      have hpwb : List.Pairwise (fun a c => a.ts ≠ c.ts) (xs ++ [b]) := by
        refine List.pairwise_append.mpr
          ⟨List.Pairwise.of_cons hpw, List.pairwise_singleton _ _, ?_⟩
        intro a ha c hc
        have hcb : c = b := by simpa using hc
        rw [hcb]
        exact fun he => hx a ha he.symm
      rw [if_pos rfl, dedupKeepLast_eq_self hpwb]
      exact List.perm_append_singleton b xs
    · have hany : (xs ++ [b]).any (fun s => s.ts == x.ts) = false := by
        refine List.any_eq_false.mpr ?_
        intro s hs
        rcases List.mem_append.mp hs with h1 | h1
        · simpa using fun he => hx s h1 he.symm
        · have hsb : s = b := by simpa using h1
          rw [hsb]
          simpa using fun he => hx b hbxs he.symm
      rw [hany]
      rw [if_neg (by simp)]
      exact List.Perm.cons x
        (dedupKeepLast_append_mem_perm xs b (List.Pairwise.of_cons hpw) hbxs)

/-- Distinct timestamps survive any permutation. -/
theorem pairwise_ne_of_perm {l m : List Row} (hp : List.Perm l m)
    (h : List.Pairwise (fun a b => a.ts ≠ b.ts) l) :
    List.Pairwise (fun a b => a.ts ≠ b.ts) m := by
  refine (List.Perm.pairwise_iff ?_ hp).mp h
  intro a b hab
  exact fun hba => hab hba.symm

/-- Weak timestamp sortedness plus distinct timestamps is strict
sortedness. -/
theorem pairwise_lt_of_sorted_ne {l : List Row} (h1 : List.Pairwise tsle l)
    (h2 : List.Pairwise (fun a b => a.ts ≠ b.ts) l) : List.Pairwise tslt l :=
  List.Pairwise.imp₂ (fun _ _ hle hne => lt_of_le_of_ne hle hne) h1 h2

/-- Two rows of a duplicate-free list sharing a timestamp coincide. -/
theorem eq_of_pairwise_ne_mem : ∀ {l : List Row} {r s : Row},
    List.Pairwise (fun a b => a.ts ≠ b.ts) l → r ∈ l → s ∈ l → r.ts = s.ts → r = s
  | [], r, s, _, hr, _, _ => absurd hr (List.not_mem_nil r)
  | x :: xs, r, s, hpw, hr, hs, hts => by
    rcases List.mem_cons.mp hr with rfl | hr1
    · rcases List.mem_cons.mp hs with rfl | hs1
      · rfl
      · exact absurd hts (List.rel_of_pairwise_cons hpw hs1)
    · rcases List.mem_cons.mp hs with rfl | hs1
      · exact absurd hts.symm (List.rel_of_pairwise_cons hpw hr1)
      · exact eq_of_pairwise_ne_mem (List.Pairwise.of_cons hpw) hr1 hs1 hts

/-- The updated buffer has pairwise distinct timestamps. -/
theorem bufferUpdate_pairwise_ne (cutoff : ℚ) (existing : Option (List Row))
    (batch : List Row) :
    List.Pairwise (fun a b => a.ts ≠ b.ts) (bufferUpdate cutoff existing batch) := by
  unfold bufferUpdate
  exact pairwise_ne_of_perm (sortByTs_perm _).symm
    (List.Pairwise.filter _ (dedupKeepLast_pairwise_ne _))

/-- The updated buffer is strictly sorted by timestamp. -/
theorem bufferUpdate_pairwise_lt (cutoff : ℚ) (existing : Option (List Row))
    (batch : List Row) :
    List.Pairwise tslt (bufferUpdate cutoff existing batch) := by
  refine pairwise_lt_of_sorted_ne ?_ (bufferUpdate_pairwise_ne cutoff existing batch)
  unfold bufferUpdate
  exact sortByTs_sorted _

/-- Every row of the updated buffer is at or after the cutoff. -/
theorem bufferUpdate_mem_cutoff {cutoff : ℚ} {existing : Option (List Row)}
    {batch : List Row} {r : Row} (hr : r ∈ bufferUpdate cutoff existing batch) :
    cutoff ≤ r.ts := by
  unfold bufferUpdate at hr
  rw [mem_sortByTs] at hr
  have := (List.mem_filter.mp hr).2
  exact of_decide_eq_true this

/-! ### Claim theorems: retention, ordering, idempotence -/

/-- C4: after every rolling-buffer update completes, no persisted row for
the tag pair has a timestamp strictly older than the cutoff (the cycle's
current time minus the BUFFER_HOURS retention), i.e. every persisted row
satisfies cutoff ≤ timestamp. -/
theorem buffer_update_retention (cutoff : ℚ) (existing : Option (List Row))
    (batch : List Row) (r : Row) (hr : r ∈ bufferUpdate cutoff existing batch) :
    ¬ r.ts < cutoff :=
  not_lt.mpr (bufferUpdate_mem_cutoff hr)

/-- Witness for C4 at a concrete input. -/
theorem buffer_update_retention_check :
    (⟨1, 2⟩ : Row) ∈ bufferUpdate 0 none [⟨1, 2⟩] ∧ ¬ (⟨1, 2⟩ : Row).ts < 0 :=
  ⟨by decide, buffer_update_retention 0 none [⟨1, 2⟩] ⟨1, 2⟩ (by decide)⟩

/-- C6: after every rolling-buffer update the persisted table is strictly
increasing in timestamp, which is exactly pairwise-unique timestamps in
ascending (non-decreasing) order. -/
theorem buffer_update_sorted_unique (cutoff : ℚ) (existing : Option (List Row))
    (batch : List Row) :
    List.Pairwise (fun a b => a.ts < b.ts) (bufferUpdate cutoff existing batch) :=
  bufferUpdate_pairwise_lt cutoff existing batch

/-- C3 counterexample: the rolling-buffer update of src/main.py is not
idempotent.  With an empty prior state and the two-row batch below, one
update persists both rows, but a second update with the same batch first
drops the oldest persisted row and re-appends only the batch's last row,
leaving a single row. -/
theorem buffer_update_not_idempotent :
    bufferUpdate 0 (some (bufferUpdate 0 none [⟨1, 10⟩, ⟨2, 20⟩])) [⟨1, 10⟩, ⟨2, 20⟩] ≠
      bufferUpdate 0 none [⟨1, 10⟩, ⟨2, 20⟩] := by decide

/-- The batch's last row always survives an update whose cutoff it meets,
and it is the unique persisted row carrying its timestamp. -/
theorem bufferUpdate_getLast_mem (cutoff : ℚ) (ex : Option (List Row))
    (batch : List Row) (b : Row) (hb : batch.getLast? = some b)
    (hc : cutoff ≤ b.ts) :
    b ∈ bufferUpdate cutoff ex batch ∧
      ∀ r ∈ bufferUpdate cutoff ex batch, r.ts = b.ts → r = b := by
  have hshape : ∃ xs, bufferUpdate cutoff ex batch =
      sortByTs ((dedupKeepLast (xs ++ [b])).filter (fun r => cutoff ≤ r.ts)) := by
    match ex with
    | some e =>
      refine ⟨(sortByTs e).drop 1, ?_⟩
      unfold bufferUpdate
      rw [hb]
    | none =>
      obtain ⟨init, hinit⟩ := List.getLast?_eq_some_iff.mp hb
      refine ⟨init, ?_⟩
      unfold bufferUpdate
      rw [hinit]
  obtain ⟨xs, hx⟩ := hshape
  rw [hx]
  constructor
  · rw [mem_sortByTs]
    exact List.mem_filter.mpr ⟨getLast_mem_dedupKeepLast xs b, by simpa using hc⟩
  · intro r hr hts
    rw [mem_sortByTs] at hr
    exact dedupKeepLast_last_ts_unique xs b r (List.mem_filter.mp hr).1 hts

/-- Effect of running the update again over an already-updated state u:
since u is strictly sorted, contains the batch's last row b, and all its
rows meet the cutoff, the second update reduces to dropping u's oldest
row and re-appending b — a no-op exactly when b is u's oldest row. -/
theorem buffer_second_update (cutoff : ℚ) (u batch : List Row) (b : Row)
    (hb : batch.getLast? = some b)
    (hult : List.Pairwise tslt u)
    (hcut : ∀ r ∈ u, cutoff ≤ r.ts)
    (hbu : b ∈ u) :
    bufferUpdate cutoff (some u) batch =
      if u.head? = some b then u else u.drop 1 := by
  have hune : List.Pairwise (fun a c => a.ts ≠ c.ts) u :=
    hult.imp (fun h => ne_of_lt h)
  have hule : List.Sorted tsle u := hult.imp (fun h => le_of_lt h)
  have hlhs : bufferUpdate cutoff (some u) batch =
      sortByTs ((dedupKeepLast ((sortByTs u).drop 1 ++ [b])).filter
        (fun r => cutoff ≤ r.ts)) := by
    unfold bufferUpdate
    rw [hb]
  rw [hlhs, sortByTs_eq_self hule]
  by_cases hhead : u.head? = some b
  · rw [if_pos hhead]
    obtain ⟨t, ht⟩ := List.head?_eq_some_iff.mp hhead
    subst ht
    have htd : (b :: t).drop 1 = t := rfl
    have htne : List.Pairwise (fun a c => a.ts ≠ c.ts) (t ++ [b]) := by
      refine List.pairwise_append.mpr
        ⟨hune.of_cons, List.pairwise_singleton _ _, ?_⟩
      intro a ha c hcm
      have hcb : c = b := by simpa using hcm
      rw [hcb]
      exact fun he => (List.rel_of_pairwise_cons hune ha) he.symm
    have hsub : ∀ r ∈ t ++ [b], r ∈ b :: t := by
      intro r hr
      rcases List.mem_append.mp hr with h1 | h1
      · exact List.mem_cons_of_mem b h1
      · have : r = b := by simpa using h1
        rw [this]; exact List.mem_cons_self b t
    rw [htd, dedupKeepLast_eq_self htne,
      List.filter_eq_self.mpr (fun a ha => by simpa using hcut a (hsub a ha))]
    have hperm : List.Perm (sortByTs (t ++ [b])) (b :: t) :=
      (sortByTs_perm _).trans (List.perm_append_singleton b t)
    exact List.eq_of_perm_of_sorted hperm
      (pairwise_lt_of_sorted_ne (sortByTs_sorted _)
        (pairwise_ne_of_perm hperm.symm hune)) hult
  · rw [if_neg hhead]
    match hu2 : u, hbu, hune, hult, hcut, hhead with
    | h :: t, hbu, hune, hult, hcut, hhead =>
      have hhb : h ≠ b := fun he => hhead (by rw [he]; rfl)
      have hbt : b ∈ t := by
        rcases List.mem_cons.mp hbu with h1 | h1
        · exact absurd h1.symm hhb
        · exact h1
      have hperm2 : List.Perm (dedupKeepLast (t ++ [b])) t :=
        dedupKeepLast_append_mem_perm t b hune.of_cons hbt
      have hsub2 : ∀ r ∈ dedupKeepLast (t ++ [b]), cutoff ≤ r.ts := by
        intro r hr
        exact hcut r (List.mem_cons_of_mem h (hperm2.mem_iff.mp hr))
      have htd : (h :: t).drop 1 = t := rfl
      rw [htd, List.filter_eq_self.mpr (fun a ha => by simpa using hsub2 a ha)]
      have hperm3 : List.Perm (sortByTs (dedupKeepLast (t ++ [b]))) t :=
        (sortByTs_perm _).trans hperm2
      exact List.eq_of_perm_of_sorted hperm3
        (pairwise_lt_of_sorted_ne (sortByTs_sorted _)
          (pairwise_ne_of_perm hperm3.symm hune.of_cons)) hult.of_cons

/-- C3 amended: the update of src/main.py lines 86-98 is not idempotent.
Applying it a second time with the same batch leaves the persisted state
unchanged exactly when the batch's final row is (still) the oldest
persisted row; otherwise the second application removes the oldest
persisted row and changes nothing else.  (Hypotheses: the batch is
nonempty with final row b, and b is not older than the cutoff.) -/
theorem buffer_update_twice (cutoff : ℚ) (ex : Option (List Row))
    (batch : List Row) (b : Row) (hb : batch.getLast? = some b)
    (hc : cutoff ≤ b.ts) :
    bufferUpdate cutoff (some (bufferUpdate cutoff ex batch)) batch =
      if (bufferUpdate cutoff ex batch).head? = some b
      then bufferUpdate cutoff ex batch
      else (bufferUpdate cutoff ex batch).drop 1 :=
  buffer_second_update cutoff (bufferUpdate cutoff ex batch) batch b hb
    (bufferUpdate_pairwise_lt cutoff ex batch)
    (fun _ hr => bufferUpdate_mem_cutoff hr)
    (bufferUpdate_getLast_mem cutoff ex batch b hb hc).1

/-- Witness for the amended C3 at a concrete input: a second update with
the same batch drops the oldest of the two persisted rows. -/
theorem buffer_update_twice_check :
    ([⟨1, 10⟩, ⟨2, 20⟩] : List Row).getLast? = some ⟨2, 20⟩ ∧ (0 : ℚ) ≤ (2 : ℚ) ∧
      bufferUpdate 0 (some (bufferUpdate 0 none [⟨1, 10⟩, ⟨2, 20⟩])) [⟨1, 10⟩, ⟨2, 20⟩] =
        (if (bufferUpdate 0 none [⟨1, 10⟩, ⟨2, 20⟩]).head? = some ⟨2, 20⟩
         then bufferUpdate 0 none [⟨1, 10⟩, ⟨2, 20⟩]
         else (bufferUpdate 0 none [⟨1, 10⟩, ⟨2, 20⟩]).drop 1) :=
  ⟨by decide, by decide,
    buffer_update_twice 0 none [⟨1, 10⟩, ⟨2, 20⟩] ⟨2, 20⟩ (by decide) (by decide)⟩

/-! ### Claim theorems: configuration parsing -/

/-- C8: parsing TAG_PAIRS skips each malformed comma-separated entry
individually while keeping the well-formed ones — dropping a non-parsing
entry from the split list never disturbs the other entries — and the
input "SP1:PV1, bad_entry, SP2:PV2" parses to exactly
[("SP1","PV1"),("SP2","PV2")] with surrounding whitespace stripped. -/
theorem parse_tag_pairs_skips_malformed :
    parse_tag_pairs "SP1:PV1, bad_entry, SP2:PV2" = [("SP1", "PV1"), ("SP2", "PV2")] ∧
      ∀ (xs ys : List String) (bad : String), parseEntry bad = none →
        (xs ++ bad :: ys).filterMap parseEntry = (xs ++ ys).filterMap parseEntry := by
  refine ⟨by decide, ?_⟩
  intro xs ys bad hbad
  simp [List.filterMap_append, List.filterMap_cons, hbad]

/-- Witness for C8: dropping the concrete malformed entry between the two
well-formed ones changes nothing. -/
theorem parse_tag_pairs_skips_malformed_check :
    parseEntry " bad_entry " = none ∧
      (["SP1:PV1"] ++ " bad_entry " :: ["SP2:PV2"]).filterMap parseEntry =
        (["SP1:PV1"] ++ ["SP2:PV2"]).filterMap parseEntry :=
  ⟨by decide,
    parse_tag_pairs_skips_malformed.2 ["SP1:PV1"] ["SP2:PV2"] " bad_entry " (by decide)⟩

/-! ### Claim theorems: sensor fetch -/

/-- C10: fetch_sensor_data is total over all modelled outcomes (the Python
function catches every exception raised inside its try block) and its
result is: the parsed (Timestamp, Value) rows when the response has status
200 and a fully parseable body; the empty table when status is 200, the
body parses, and the requested tag is absent (dict .get default {});
and None — modelled as none — in every other case: network exception,
non-200 status, an undecodable body, a body that is not a JSON object, or
a tag value whose items cannot be converted. -/
theorem fetch_sensor_data_cases (tsParse : String → Option ℚ) (tag : String) :
    (fetch_sensor_data tsParse tag none = none) ∧
      (∀ r : Response, r.status ≠ 200 →
        fetch_sensor_data tsParse tag (some r) = none) ∧
      (fetch_sensor_data tsParse tag (some ⟨200, none⟩) = none) ∧
      (∀ fields, lookupField fields tag = none →
        fetch_sensor_data tsParse tag (some ⟨200, some (.obj fields)⟩) = some []) ∧
      (∀ fields v rows, lookupField fields tag = some v →
        toSeries tsParse v = some rows →
        fetch_sensor_data tsParse tag (some ⟨200, some (.obj fields)⟩) = some rows) ∧
      (∀ fields v, lookupField fields tag = some v → toSeries tsParse v = none →
        fetch_sensor_data tsParse tag (some ⟨200, some (.obj fields)⟩) = none) ∧
      (∀ j : JVal, (∀ fields, j ≠ .obj fields) →
        fetch_sensor_data tsParse tag (some ⟨200, some j⟩) = none) := by
  refine ⟨rfl, ?_, rfl, ?_, ?_, ?_, ?_⟩
  · intro r hr
    simp only [fetch_sensor_data]
    rw [if_neg hr]
  · intro fields hf
    simp only [fetch_sensor_data, if_pos rfl, hf]
    rfl
  · intro fields v rows hf hs
    simp only [fetch_sensor_data, if_pos rfl, hf]
    exact hs
  · intro fields v hf hs
    simp only [fetch_sensor_data, if_pos rfl, hf]
    exact hs
  · intro j hj
    simp only [fetch_sensor_data, if_pos rfl]
    match j, hj with
    | .num q, _ => rfl
    | .str s, _ => rfl
    | .arr a, _ => rfl
    | .null, _ => rfl
    | .obj fields, hj => exact absurd rfl (hj fields)

/-- Witness for C10 at concrete inputs: an HTTP 500 response yields none,
a 200 response whose body holds the tag yields its rows, and a 200
response without the tag yields the empty table. -/
theorem fetch_sensor_data_cases_check :
    ((⟨500, none⟩ : Response).status ≠ 200 ∧
      fetch_sensor_data (fun s => if s = "7" then some 7 else none) "SP1"
        (some ⟨500, none⟩) = none) ∧
      (lookupField [("SP1", .obj [("7", .num 21)])] "SP1" = some (.obj [("7", .num 21)]) ∧
        toSeries (fun s => if s = "7" then some 7 else none) (.obj [("7", .num 21)]) =
          some [(7, .num 21)] ∧
        fetch_sensor_data (fun s => if s = "7" then some 7 else none) "SP1"
          (some ⟨200, some (.obj [("SP1", .obj [("7", .num 21)])])⟩) =
          some [(7, .num 21)]) ∧
      (lookupField [] "SP1" = none ∧
        fetch_sensor_data (fun s => if s = "7" then some 7 else none) "SP1"
          (some ⟨200, some (.obj [])⟩) = some []) :=
  ⟨⟨by decide,
      (fetch_sensor_data_cases (fun s => if s = "7" then some 7 else none) "SP1").2.1
        ⟨500, none⟩ (by decide)⟩,
    ⟨rfl, rfl,
      (fetch_sensor_data_cases (fun s => if s = "7" then some 7 else none) "SP1").2.2.2.2.1
        [("SP1", .obj [("7", .num 21)])] (.obj [("7", .num 21)]) [(7, .num 21)] rfl rfl⟩,
    ⟨rfl,
      (fetch_sensor_data_cases (fun s => if s = "7" then some 7 else none) "SP1").2.2.2.1
        [] rfl⟩⟩

/-! ### Claim theorems: per-pair failure isolation -/

/-- C7: when the fetch of either tag of a pair fails (fetch_sensor_data
returns none — network error, non-200 status such as 500, or a malformed
body, per fetch_sensor_data_cases), that pair contributes no aligned rows
in the cycle and its persisted buffer state is returned untouched, while
the cycle still processes every pair: the cycle result has one entry per
configured pair and each entry depends only on that pair's own fetches
and prior state. -/
theorem fetch_failure_skips_pair (cutoff : ℚ)
    (pipe : List (ℚ × JVal) → List (ℚ × JVal) → List Row)
    (tsParse : String → Option ℚ) (net : String → Option Response)
    (priors : String × String → Option (List Row))
    (pairs : List (String × String)) (i : Nat) (sp pv : String)
    (hp : pairs[i]? = some (sp, pv))
    (hfail : fetch_sensor_data tsParse sp (net sp) = none ∨
      fetch_sensor_data tsParse pv (net pv) = none) :
    (runCycle cutoff pipe tsParse net priors pairs)[i]? = some (priors (sp, pv)) ∧
      processPair cutoff pipe (fetch_sensor_data tsParse sp (net sp))
        (fetch_sensor_data tsParse pv (net pv)) (priors (sp, pv)) = priors (sp, pv) ∧
      pairAlignedRows pipe (fetch_sensor_data tsParse sp (net sp))
        (fetch_sensor_data tsParse pv (net pv)) = [] ∧
      (runCycle cutoff pipe tsParse net priors pairs).length = pairs.length := by
  have hskip : processPair cutoff pipe (fetch_sensor_data tsParse sp (net sp))
      (fetch_sensor_data tsParse pv (net pv)) (priors (sp, pv)) = priors (sp, pv) := by
    rcases hfail with h | h
    · rw [h]
      rfl
    · rw [h]
      unfold processPair
      match fetch_sensor_data tsParse sp (net sp) with
      | none => rfl
      | some dsp => rfl
  have hrows : pairAlignedRows pipe (fetch_sensor_data tsParse sp (net sp))
      (fetch_sensor_data tsParse pv (net pv)) = [] := by
    rcases hfail with h | h
    · rw [h]
      rfl
    · rw [h]
      unfold pairAlignedRows
      match fetch_sensor_data tsParse sp (net sp) with
      | none => rfl
      | some dsp => rfl
  refine ⟨?_, hskip, hrows, by simp [runCycle]⟩
  unfold runCycle
  rw [List.getElem?_map, hp]
  show some (processPair cutoff pipe (fetch_sensor_data tsParse sp (net sp))
    (fetch_sensor_data tsParse pv (net pv)) (priors (sp, pv))) = _
  rw [hskip]

/-- Witness for C7: an HTTP 500 response for the setpoint tag makes the
fetch yield none, and the cycle leaves the pair's persisted rows exactly
as they were. -/
theorem fetch_failure_skips_pair_check :
    fetch_sensor_data (fun _ => none) "SP1" (some ⟨500, none⟩) = none ∧
      (runCycle 0 (fun _ _ => []) (fun _ => none) (fun _ => some ⟨500, none⟩)
        (fun _ => some [⟨1, 2⟩]) [("SP1", "PV1")])[0]? = some (some [⟨1, 2⟩]) :=
  ⟨rfl,
    (fetch_failure_skips_pair 0 (fun _ _ => []) (fun _ => none)
      (fun _ => some ⟨500, none⟩) (fun _ => some [⟨1, 2⟩]) [("SP1", "PV1")] 0
      "SP1" "PV1" rfl (Or.inl rfl)).1⟩

/-! ### Claim theorems: time alignment -/

/-- Unfolded form of alignPair. -/
theorem alignPair_def (tol : ℚ) (L R : List Sample) :
    alignPair tol L R =
      List.zipWith (fun (r : MRow) p => ⟨r.ts, r.sp, p⟩)
        (List.insertionSort mrle (mergeAsof tol (sortSamples L) (sortSamples R)))
        (ffillCol (bfillCol (interpolateCol
          ((List.insertionSort mrle
            (mergeAsof tol (sortSamples L) (sortSamples R))).map MRow.pv)))) := rfl

/-- A result of the nearest-sample scan is either the seed or a list
element. -/
theorem nearestSample_go_mem (t : ℚ) : ∀ (l : List Sample) (acc : Option Sample)
    (r : Sample),
    l.foldl (fun acc r =>
      match acc with
      | none => some r
      | some c => if |r.ts - t| < |c.ts - t| then some r else some c) acc = some r →
    acc = some r ∨ r ∈ l
  | [], _, _, h => Or.inl h
  | x :: xs, acc, r, h => by
    rw [List.foldl_cons] at h
    rcases nearestSample_go_mem t xs _ r h with h1 | h1
    · match acc, h1 with
      | none, h1 =>
        dsimp only at h1
        have hx : x = r := by injection h1
        exact Or.inr (hx ▸ List.mem_cons_self x xs)
      | some c, h1 =>
        dsimp only at h1
        by_cases hlt : |x.ts - t| < |c.ts - t|
        · rw [if_pos hlt] at h1
          have hx : x = r := by injection h1
          exact Or.inr (hx ▸ List.mem_cons_self x xs)
        · rw [if_neg hlt] at h1
          exact Or.inl h1
    · exact Or.inr (List.mem_cons_of_mem x h1)

/-- The nearest sample comes from the candidate list. -/
theorem nearestSample_mem {rights : List Sample} {t : ℚ} {r : Sample}
    (h : nearestSample rights t = some r) : r ∈ rights := by
  rcases nearestSample_go_mem t rights none r h with h1 | h1
  · exact absurd h1 (by simp)
  · exact h1

/-- A tolerance-checked nearest match is a real sample within the
tolerance. -/
theorem nearestWithin_spec {tol : ℚ} {rights : List Sample} {t : ℚ} {r : Sample}
    (h : nearestWithin tol rights t = some r) : r ∈ rights ∧ |r.ts - t| ≤ tol := by
  unfold nearestWithin at h
  match hn : nearestSample rights t with
  | none => rw [hn] at h; exact absurd h (by simp)
  | some r0 =>
    rw [hn] at h
    dsimp only at h
    by_cases htol : |r0.ts - t| ≤ tol
    · rw [if_pos htol] at h
      have : r0 = r := by injection h
      subst this
      exact ⟨nearestSample_mem hn, htol⟩
    · rw [if_neg htol] at h
      exact absurd h (by simp)

/-- C5 counterexample: with the 60-second tolerance, the setpoint sample
at time 0 has no actual sample within tolerance (the only actual sample is
300 s away), yet merge_asof keeps its row, null-padded, in the join
output instead of dropping it; the subsequent interpolate/bfill/ffill then
fills that row with the value of the actual sample 300 s away, so the
aligned table pairs two samples farther apart than the tolerance. -/
theorem merge_asof_pads_unmatched :
    mergeAsof 60 [⟨0, 1⟩, ⟨300, 2⟩] [⟨300, 5⟩] =
        [⟨0, 1, none⟩, ⟨300, 2, some 5⟩] ∧
      alignPair 60 [⟨0, 1⟩, ⟨300, 2⟩] [⟨300, 5⟩] =
        [⟨0, 1, some 5⟩, ⟨300, 2, some 5⟩] := by
  have h1 : nearestWithin 60 [⟨300, 5⟩] 0 = none := by
    norm_num [nearestWithin, nearestSample]
  have h2 : nearestWithin 60 [⟨300, 5⟩] 300 = some ⟨300, 5⟩ := by
    norm_num [nearestWithin, nearestSample]
  have hm : mergeAsof 60 [⟨0, 1⟩, ⟨300, 2⟩] [⟨300, 5⟩] =
      [⟨0, 1, none⟩, ⟨300, 2, some 5⟩] := by
    simp [mergeAsof, h1, h2]
  refine ⟨hm, ?_⟩
  have hsl : sortSamples [(⟨0, 1⟩ : Sample), ⟨300, 2⟩] = [⟨0, 1⟩, ⟨300, 2⟩] := by decide
  have hsr : sortSamples [(⟨300, 5⟩ : Sample)] = [⟨300, 5⟩] := by decide
  have hms : List.insertionSort mrle [(⟨0, 1, none⟩ : MRow), ⟨300, 2, some 5⟩] =
      [⟨0, 1, none⟩, ⟨300, 2, some 5⟩] := by decide
  rw [alignPair_def, hsl, hsr, hm, hms]
  decide

/-- C5 amended: the merge itself respects the tolerance and never drops a
setpoint row — the join output carries exactly the setpoint rows in
order, unmatched actual samples are absent, and whenever a row carries a
matched actual value that value comes from an actual sample within the
tolerance of the row's timestamp.  Unmatched setpoint rows, however, are
kept null-padded (and later filled), not dropped. -/
theorem merge_asof_tolerance (tol : ℚ) (lefts rights : List Sample) :
    ((mergeAsof tol lefts rights).map (fun r => (r.ts, r.sp)) =
      lefts.map (fun s => (s.ts, s.val))) ∧
      (∀ row ∈ mergeAsof tol lefts rights, ∀ v, row.pv = some v →
        ∃ r ∈ rights, r.val = v ∧ |r.ts - row.ts| ≤ tol) := by
  constructor
  · simp [mergeAsof]
  · intro row hrow v hv
    obtain ⟨l, _, hl⟩ := List.mem_map.mp hrow
    have hpv : (nearestWithin tol rights l.ts).map Sample.val = some v := by
      rw [← hv, ← hl]
    obtain ⟨r, hr, hrv⟩ := Option.map_eq_some'.mp hpv
    obtain ⟨hmem, htol⟩ := nearestWithin_spec hr
    refine ⟨r, hmem, hrv, ?_⟩
    rw [← hl]
    exact htol

/-- Witness for the amended C5: a matched actual sample 10 s away (within
the 60 s tolerance) is traced back to the actual series. -/
theorem merge_asof_tolerance_check :
    (⟨0, 1, some 7⟩ : MRow) ∈ mergeAsof 60 [⟨0, 1⟩] [⟨10, 7⟩] ∧
      ∃ r ∈ [(⟨10, 7⟩ : Sample)], r.val = 7 ∧ |r.ts - (⟨0, 1, some 7⟩ : MRow).ts| ≤ 60 := by
  have hn : nearestWithin 60 [⟨10, 7⟩] 0 = some ⟨10, 7⟩ := by
    norm_num [nearestWithin, nearestSample]
  have hmem : (⟨0, 1, some 7⟩ : MRow) ∈ mergeAsof 60 [⟨0, 1⟩] [⟨10, 7⟩] := by
    simp [mergeAsof, hn]
  exact ⟨hmem,
    (merge_asof_tolerance 60 [⟨0, 1⟩] [⟨10, 7⟩]).2 ⟨0, 1, some 7⟩ hmem 7 rfl⟩

/-! ### Lemmas about detector column names and frames -/

/-- Strings with equal character data are equal. -/
theorem string_eq_of_data {s t : String} (h : s.data = t.data) : s = t := by
  cases s; cases t; simp_all

/-- Error and anomaly column names never clash, whatever the tags. -/
theorem errCol_ne_anomCol (a b : String) : errCol a ≠ anomCol b := by
  intro h
  have hd := congrArg String.data h
  rw [errCol, anomCol, String.data_append, String.data_append] at hd
  have h1 : ("Error_" : String).data = ['E', 'r', 'r', 'o', 'r', '_'] := rfl
  have h2 : ("Anomaly_" : String).data = ['A', 'n', 'o', 'm', 'a', 'l', 'y', '_'] := rfl
  rw [h1, h2] at hd
  simp at hd

/-- Setpoint column names never clash with error columns. -/
theorem spCol_ne_errCol (a b : String) : spCol a ≠ errCol b := by
  intro h
  have hd := congrArg String.data h
  rw [spCol, errCol, String.data_append, String.data_append] at hd
  have h1 : ("SetPoint_" : String).data =
    ['S', 'e', 't', 'P', 'o', 'i', 'n', 't', '_'] := rfl
  have h2 : ("Error_" : String).data = ['E', 'r', 'r', 'o', 'r', '_'] := rfl
  rw [h1, h2] at hd
  simp at hd

/-- Setpoint column names never clash with anomaly columns. -/
theorem spCol_ne_anomCol (a b : String) : spCol a ≠ anomCol b := by
  intro h
  have hd := congrArg String.data h
  rw [spCol, anomCol, String.data_append, String.data_append] at hd
  have h1 : ("SetPoint_" : String).data =
    ['S', 'e', 't', 'P', 'o', 'i', 'n', 't', '_'] := rfl
  have h2 : ("Anomaly_" : String).data = ['A', 'n', 'o', 'm', 'a', 'l', 'y', '_'] := rfl
  rw [h1, h2] at hd
  simp at hd

/-- Actual column names never clash with error columns. -/
theorem pvCol_ne_errCol (a b : String) : pvCol a ≠ errCol b := by
  intro h
  have hd := congrArg String.data h
  rw [pvCol, errCol, String.data_append, String.data_append] at hd
  have h1 : ("Actual_" : String).data = ['A', 'c', 't', 'u', 'a', 'l', '_'] := rfl
  have h2 : ("Error_" : String).data = ['E', 'r', 'r', 'o', 'r', '_'] := rfl
  rw [h1, h2] at hd
  simp at hd

/-- Actual column names never clash with anomaly columns. -/
theorem pvCol_ne_anomCol (a b : String) : pvCol a ≠ anomCol b := by
  intro h
  have hd := congrArg String.data h
  rw [pvCol, anomCol, String.data_append, String.data_append] at hd
  have h1 : ("Actual_" : String).data = ['A', 'c', 't', 'u', 'a', 'l', '_'] := rfl
  have h2 : ("Anomaly_" : String).data = ['A', 'n', 'o', 'm', 'a', 'l', 'y', '_'] := rfl
  rw [h1, h2] at hd
  simp at hd

/-- Error column names determine their tag. -/
theorem errCol_inj {a b : String} (h : errCol a = errCol b) : a = b := by
  have hd := congrArg String.data h
  rw [errCol, errCol, String.data_append, String.data_append] at hd
  exact string_eq_of_data (List.append_cancel_left hd)

/-- Anomaly column names determine their tag. -/
theorem anomCol_inj {a b : String} (h : anomCol a = anomCol b) : a = b := by
  have hd := congrArg String.data h
  rw [anomCol, anomCol, String.data_append, String.data_append] at hd
  exact string_eq_of_data (List.append_cancel_left hd)

/-- Column lookup in a concatenation prefers the left frame. -/
theorem getCol_append (df extra : DataFrame) (c : String) :
    getCol (df ++ extra) c = ((getCol df c).or (getCol extra c)) := by
  unfold getCol
  rw [List.find?_append]
  cases hf : List.find? (fun p => p.1 == c) df with
  | some p => rfl
  | none => rfl

/-- A name present in the left frame keeps its column after appending. -/
theorem getCol_append_of_hasCol {df : DataFrame} (extra : DataFrame) {c : String}
    (h : hasCol df c = true) : getCol (df ++ extra) c = getCol df c := by
  rw [getCol_append]
  unfold hasCol at h
  match hg : getCol df c with
  | some v => rfl
  | none => rw [hg] at h; exact absurd h (by simp)

/-- A name absent from the left frame looks up in the appended part. -/
theorem getCol_append_of_not_hasCol {df : DataFrame} (extra : DataFrame) {c : String}
    (h : hasCol df c = false) : getCol (df ++ extra) c = getCol extra c := by
  rw [getCol_append]
  unfold hasCol at h
  match hg : getCol df c with
  | some v => rw [hg] at h; exact absurd h (by simp)
  | none => rfl

/-- Lookup of a fresh head column. -/
theorem getCol_cons_self (c : String) (v : ColData) (rest : DataFrame) :
    getCol ((c, v) :: rest) c = some v := by
  unfold getCol
  rw [List.find?_cons_of_pos _ (by simp)]
  rfl

/-- Lookup skips a head column with a different name. -/
theorem getCol_cons_ne {n c : String} (hnc : n ≠ c) (v : ColData) (rest : DataFrame) :
    getCol ((n, v) :: rest) c = getCol rest c := by
  unfold getCol
  rw [List.find?_cons_of_neg]
  simp [hnc]

/-- getCol over the empty frame. -/
theorem getCol_nil (c : String) : getCol ([] : DataFrame) c = none := rfl

/-- Writing a fresh column appends it. -/
theorem setCol_fresh {df : DataFrame} {c : String} (h : hasCol df c = false)
    (v : ColData) : setCol df c v = df ++ [(c, v)] := by
  unfold setCol
  rw [h]
  simp

/-- hasCol distributes over concatenation as a disjunction. -/
theorem hasCol_append (df extra : DataFrame) (c : String) :
    hasCol (df ++ extra) c = (hasCol df c || hasCol extra c) := by
  unfold hasCol
  rw [getCol_append]
  match getCol df c with
  | some v => rfl
  | none => rfl

/-- Every column added for a pair is that pair's error or anomaly column. -/
theorem pairNewCols_names (k : ℚ) (df : DataFrame) (sp pv : String) :
    ∀ e ∈ pairNewCols k df sp pv, e.1 = errCol sp ∨ e.1 = anomCol sp := by
  intro e he
  unfold pairNewCols at he
  cases hsp : getCol df (spCol sp) with
  | none => rw [hsp] at he; simp at he
  | some cd =>
    rw [hsp] at he
    cases cd with
    | bcol l =>
      cases hpv : getCol df (pvCol pv) with
      | none => rw [hpv] at he; simp at he
      | some cd2 => rw [hpv] at he; cases cd2 <;> simp at he
    | fcol sps =>
      cases hpv : getCol df (pvCol pv) with
      | none => rw [hpv] at he; simp at he
      | some cd2 =>
        rw [hpv] at he
        cases cd2 with
        | bcol l => simp at he
        | fcol pvs =>
          dsimp only at he
          rcases List.mem_cons.mp he with h1 | h1
          · exact Or.inl (by rw [h1])
          · have : e = (anomCol sp,
                ColData.bcol ((List.zipWith (fun a b => a - b) sps pvs).map
                  (anomalyFlag k (seriesMean (List.zipWith (fun a b => a - b) sps pvs))
                    (sampleVar (List.zipWith (fun a b => a - b) sps pvs))))) := by
              simpa using h1
            exact Or.inr (by rw [this])

/-- Lookup misses a frame none of whose columns carry the name. -/
theorem getCol_extra_none {extra : DataFrame} {c : String}
    (h : ∀ e ∈ extra, e.1 ≠ c) : getCol extra c = none := by
  unfold getCol
  rw [List.find?_eq_none.mpr (fun a ha => by simpa using h a ha)]
  rfl

/-- Appending columns with other names leaves a lookup unchanged. -/
theorem getCol_append_names {df : DataFrame} {extra : DataFrame} {c : String}
    (h : ∀ e ∈ extra, e.1 ≠ c) : getCol (df ++ extra) c = getCol df c := by
  rw [getCol_append, getCol_extra_none h]
  cases getCol df c with
  | some v => rfl
  | none => rfl

/-- The frame part of detectPair: under fresh output names it appends
exactly the pair's new columns and touches nothing else. -/
theorem detectPair_fst (k : ℚ) (df : DataFrame) (sp pv : String)
    (hfe : hasCol df (errCol sp) = false) (hfa : hasCol df (anomCol sp) = false) :
    (detectPair k df sp pv).1 = df ++ pairNewCols k df sp pv := by
  unfold detectPair pairNewCols
  cases getCol df (spCol sp) with
  | none => simp
  | some cd =>
    cases cd with
    | bcol l =>
      cases getCol df (pvCol pv) with
      | none => simp
      | some cd2 => cases cd2 <;> simp
    | fcol sps =>
      cases getCol df (pvCol pv) with
      | none => simp
      | some cd2 =>
        cases cd2 with
        | bcol l => simp
        | fcol pvs =>
          dsimp only
          rw [setCol_fresh hfe]
          have hfa2 : hasCol (df ++
              [(errCol sp, ColData.fcol (List.zipWith (fun a b => a - b) sps pvs))])
              (anomCol sp) = false := by
            rw [hasCol_append, hfa]
            have : getCol [(errCol sp,
                ColData.fcol (List.zipWith (fun a b => a - b) sps pvs))]
                (anomCol sp) = none :=
              getCol_extra_none (by
                intro e he
                have : e = (errCol sp,
                    ColData.fcol (List.zipWith (fun a b => a - b) sps pvs)) := by
                  simpa using he
                rw [this]
                exact errCol_ne_anomCol sp sp)
            unfold hasCol
            rw [this]
            rfl
          rw [setCol_fresh hfa2, List.append_assoc]
          rfl

/-- Frame theorem for the detector fold: with pairwise distinct setpoint
tags and output names absent from the input frame, detect_anomalies
appends each present pair's error and anomaly columns (computed from the
input frame) and changes nothing else. -/
theorem detect_frame_aux (k : ℚ) : ∀ (pairs : List (String × String)) (df : DataFrame),
    List.Pairwise (fun p q => p.1 ≠ q.1) pairs →
    (∀ p ∈ pairs, hasCol df (errCol p.1) = false ∧ hasCol df (anomCol p.1) = false) →
    (detect_anomalies k pairs df).1 =
      df ++ (pairs.map (fun p => pairNewCols k df p.1 p.2)).flatten
  | [], df, _, _ => by simp [detect_anomalies]
  | p :: ps, df, hpw, hfr => by
    have hfe := (hfr p (List.mem_cons_self p ps)).1
    have hfa := (hfr p (List.mem_cons_self p ps)).2
    have hstep : (detect_anomalies k (p :: ps) df).1 =
        (detect_anomalies k ps (detectPair k df p.1 p.2).1).1 := rfl
    rw [hstep, detectPair_fst k df p.1 p.2 hfe hfa]
    have hfr1 : ∀ q ∈ ps,
        hasCol (df ++ pairNewCols k df p.1 p.2) (errCol q.1) = false ∧
        hasCol (df ++ pairNewCols k df p.1 p.2) (anomCol q.1) = false := by
      intro q hq
      have hq1 : p.1 ≠ q.1 := List.rel_of_pairwise_cons hpw hq
      have h1 := (hfr q (List.mem_cons_of_mem p hq)).1
      have h2 := (hfr q (List.mem_cons_of_mem p hq)).2
      constructor
      · rw [hasCol_append, h1]
        have : getCol (pairNewCols k df p.1 p.2) (errCol q.1) = none := by
          refine getCol_extra_none ?_
          intro e he
          rcases pairNewCols_names k df p.1 p.2 e he with h3 | h3
          · rw [h3]
            exact fun hc => hq1 (errCol_inj hc)
          · rw [h3]
            exact fun hc => errCol_ne_anomCol q.1 p.1 hc.symm
        unfold hasCol
        rw [this]
        rfl
      · rw [hasCol_append, h2]
        have : getCol (pairNewCols k df p.1 p.2) (anomCol q.1) = none := by
          refine getCol_extra_none ?_
          intro e he
          rcases pairNewCols_names k df p.1 p.2 e he with h3 | h3
          · rw [h3]
            exact errCol_ne_anomCol p.1 q.1
          · rw [h3]
            exact fun hc => hq1 (anomCol_inj hc)
        unfold hasCol
        rw [this]
        rfl
    rw [detect_frame_aux k ps (df ++ pairNewCols k df p.1 p.2) hpw.of_cons hfr1]
    have hmap : ps.map (fun q => pairNewCols k (df ++ pairNewCols k df p.1 p.2) q.1 q.2) =
        ps.map (fun q => pairNewCols k df q.1 q.2) := by
      refine List.map_congr_left ?_
      intro q _
      unfold pairNewCols
      rw [getCol_append_names (fun e he => by
          rcases pairNewCols_names k df p.1 p.2 e he with h3 | h3
          · rw [h3]; exact fun hc => spCol_ne_errCol q.1 p.1 hc.symm
          · rw [h3]; exact fun hc => spCol_ne_anomCol q.1 p.1 hc.symm),
        getCol_append_names (fun e he => by
          rcases pairNewCols_names k df p.1 p.2 e he with h3 | h3
          · rw [h3]; exact fun hc => pvCol_ne_errCol q.2 p.1 hc.symm
          · rw [h3]; exact fun hc => pvCol_ne_anomCol q.2 p.1 hc.symm)]
    rw [hmap, List.map_cons, List.flatten_cons, List.append_assoc]

/-- A successful lookup exposes a member of the frame. -/
theorem getCol_mem {df : DataFrame} {c : String} {v : ColData}
    (h : getCol df c = some v) : (c, v) ∈ df := by
  unfold getCol at h
  obtain ⟨p, hfind, hsnd⟩ := Option.map_eq_some'.mp h
  have hmem := List.mem_of_find?_eq_some hfind
  have hname : p.1 = c := by simpa using List.find?_some hfind
  have : p = (c, v) := Prod.ext hname hsnd
  exact this ▸ hmem

/-- Content of a present pair's new columns. -/
theorem pairNewCols_eq (k : ℚ) (df : DataFrame) (sp pv : String)
    {sps pvs : List ℚ}
    (hsp : getCol df (spCol sp) = some (.fcol sps))
    (hpv : getCol df (pvCol pv) = some (.fcol pvs)) :
    pairNewCols k df sp pv =
      [(errCol sp, .fcol (List.zipWith (fun a b => a - b) sps pvs)),
       (anomCol sp, .bcol ((List.zipWith (fun a b => a - b) sps pvs).map
         (anomalyFlag k (seriesMean (List.zipWith (fun a b => a - b) sps pvs))
           (sampleVar (List.zipWith (fun a b => a - b) sps pvs)))))] := by
  unfold pairNewCols
  rw [hsp, hpv]

/-- Locating one pair's generated columns inside the flattened additions:
with pairwise distinct setpoint tags, the error and anomaly columns of a
member pair resolve to that pair's computed lists. -/
theorem getCol_flatten_pair (k : ℚ) (df : DataFrame) :
    ∀ (pairs : List (String × String)) (sp pv : String) (sps pvs : List ℚ),
    (sp, pv) ∈ pairs →
    List.Pairwise (fun p q => p.1 ≠ q.1) pairs →
    getCol df (spCol sp) = some (.fcol sps) →
    getCol df (pvCol pv) = some (.fcol pvs) →
    getCol ((pairs.map (fun p => pairNewCols k df p.1 p.2)).flatten) (errCol sp) =
        some (.fcol (List.zipWith (fun a b => a - b) sps pvs)) ∧
      getCol ((pairs.map (fun p => pairNewCols k df p.1 p.2)).flatten) (anomCol sp) =
        some (.bcol ((List.zipWith (fun a b => a - b) sps pvs).map
          (anomalyFlag k (seriesMean (List.zipWith (fun a b => a - b) sps pvs))
            (sampleVar (List.zipWith (fun a b => a - b) sps pvs)))))
  | [], sp, pv, sps, pvs, hmem, _, _, _ => absurd hmem (List.not_mem_nil _)
  | q :: rest, sp, pv, sps, pvs, hmem, hpw, hsp, hpv => by
    rw [List.map_cons, List.flatten_cons]
    rcases List.mem_cons.mp hmem with heq | hmem2
    · have hq1 : q.1 = sp := by rw [← heq]
      have hq2 : q.2 = pv := by rw [← heq]
      rw [hq1, hq2, pairNewCols_eq k df sp pv hsp hpv]
      constructor
      · rw [getCol_append_of_hasCol _ (by rw [hasCol, getCol_cons_self]; rfl),
          getCol_cons_self]
      · have hskip : getCol
            ([(errCol sp, ColData.fcol (List.zipWith (fun a b => a - b) sps pvs)),
              (anomCol sp, ColData.bcol ((List.zipWith (fun a b => a - b) sps pvs).map
                (anomalyFlag k (seriesMean (List.zipWith (fun a b => a - b) sps pvs))
                  (sampleVar (List.zipWith (fun a b => a - b) sps pvs)))))] : DataFrame)
            (anomCol sp) =
            some (ColData.bcol ((List.zipWith (fun a b => a - b) sps pvs).map
              (anomalyFlag k (seriesMean (List.zipWith (fun a b => a - b) sps pvs))
                (sampleVar (List.zipWith (fun a b => a - b) sps pvs))))) := by
          rw [getCol_cons_ne (errCol_ne_anomCol sp sp), getCol_cons_self]
        rw [getCol_append_of_hasCol _ (by rw [hasCol, hskip]; rfl), hskip]
    · have hq1 : q.1 ≠ sp := by
        have := List.rel_of_pairwise_cons hpw hmem2
        exact this
      have hnames : ∀ e ∈ pairNewCols k df q.1 q.2,
          e.1 ≠ errCol sp ∧ e.1 ≠ anomCol sp := by
        intro e he
        rcases pairNewCols_names k df q.1 q.2 e he with h3 | h3
        · exact ⟨h3 ▸ fun hc => hq1 (errCol_inj hc),
            h3 ▸ errCol_ne_anomCol q.1 sp⟩
        · exact ⟨h3 ▸ fun hc => errCol_ne_anomCol sp q.1 hc.symm,
            h3 ▸ fun hc => hq1 (anomCol_inj hc)⟩
      have ih := getCol_flatten_pair k df rest sp pv sps pvs hmem2 hpw.of_cons hsp hpv
      constructor
      · rw [getCol_append, getCol_extra_none (fun e he => (hnames e he).1), ih.1]
        rfl
      · rw [getCol_append, getCol_extra_none (fun e he => (hnames e he).2), ih.2]
        rfl

/-- The sample variance is nonnegative whenever it is defined. -/
theorem sampleVar_nonneg {l : List ℚ} {v : ℚ} (h : sampleVar l = some v) : 0 ≤ v := by
  unfold sampleVar at h
  by_cases h2 : l.length < 2
  · rw [if_pos h2] at h
    exact absurd h (by simp)
  · rw [if_neg h2] at h
    have hv : (l.map (fun x => (x - seriesMean l) ^ 2)).sum / ((l.length : ℚ) - 1) = v := by
      injection h
    rw [← hv]
    apply div_nonneg
    · apply List.sum_nonneg
      intro x hx
      obtain ⟨y, _, rfl⟩ := List.mem_map.mp hx
      exact sq_nonneg _
    · have h3 : 2 ≤ l.length := not_lt.mp h2
      have h4 : (2 : ℚ) ≤ (l.length : ℚ) := by exact_mod_cast h3
      linarith

/-- The variance is defined exactly on tables with at least two rows. -/
theorem sampleVar_isSome {l : List ℚ} (h2 : 2 ≤ l.length) :
    ∃ v, sampleVar l = some v := by
  unfold sampleVar
  rw [if_neg (not_lt.mpr h2)]
  exact ⟨_, rfl⟩

/-- A table with fewer than two rows produces no anomaly flags: the std
is NaN and the numpy comparison is uniformly False. -/
theorem anomaly_flag_short (k : ℚ) (l : List ℚ) (hlt : l.length < 2) (e : ℚ) :
    anomalyFlag k (seriesMean l) (sampleVar l) e = false := by
  unfold sampleVar anomalyFlag
  rw [if_pos hlt]

/-- The detector's squared comparison agrees with the source's
|error − mean| > k·std, std the square root of the sample variance. -/
theorem anomaly_iff (k : ℚ) (hk : 0 ≤ k) (l : List ℚ) (h2 : 2 ≤ l.length) (e : ℚ) :
    (anomalyFlag k (seriesMean l) (sampleVar l) e = true ↔
      (k : ℝ) * Real.sqrt (((sampleVar l).getD 0 : ℚ) : ℝ) <
        |(e : ℝ) - ((seriesMean l : ℚ) : ℝ)|) := by
  obtain ⟨v, hv⟩ := sampleVar_isSome h2
  have hvn : 0 ≤ v := sampleVar_nonneg hv
  rw [hv]
  unfold anomalyFlag
  dsimp only
  rw [decide_eq_true_iff, Option.getD_some]
  have key : ((k : ℝ) * Real.sqrt (v : ℝ) < |(e : ℝ) - ((seriesMean l : ℚ) : ℝ)|) ↔
      ((k : ℝ) ^ 2 * (v : ℝ) < ((e : ℝ) - ((seriesMean l : ℚ) : ℝ)) ^ 2) := by
    have hA : (0 : ℝ) ≤ |(e : ℝ) - ((seriesMean l : ℚ) : ℝ)| := abs_nonneg _
    have hB : (0 : ℝ) ≤ (k : ℝ) * Real.sqrt (v : ℝ) :=
      mul_nonneg (by exact_mod_cast hk) (Real.sqrt_nonneg _)
    rw [← pow_lt_pow_iff_left₀ hB hA (two_ne_zero), mul_pow,
      Real.sq_sqrt (by exact_mod_cast hvn), sq_abs]
  rw [gt_iff_lt, key]
  exact_mod_cast Iff.rfl

/-- Columns generated for a pair have the frame's common row count. -/
theorem pairNewCols_len (k : ℚ) (df : DataFrame) (sp pv : String) (n : Nat)
    (hlen : ∀ c ∈ df, colLen c.2 = n) :
    ∀ e ∈ pairNewCols k df sp pv, colLen e.2 = n := by
  intro e he
  unfold pairNewCols at he
  cases hsp : getCol df (spCol sp) with
  | none => rw [hsp] at he; simp at he
  | some cd =>
    rw [hsp] at he
    cases cd with
    | bcol l =>
      cases hpv : getCol df (pvCol pv) with
      | none => rw [hpv] at he; simp at he
      | some cd2 => rw [hpv] at he; cases cd2 <;> simp at he
    | fcol sps =>
      cases hpv : getCol df (pvCol pv) with
      | none => rw [hpv] at he; simp at he
      | some cd2 =>
        rw [hpv] at he
        cases cd2 with
        | bcol l => simp at he
        | fcol pvs =>
          have hsl : sps.length = n := by
            simpa [colLen] using hlen (spCol sp, ColData.fcol sps) (getCol_mem hsp)
          have hpl : pvs.length = n := by
            simpa [colLen] using hlen (pvCol pv, ColData.fcol pvs) (getCol_mem hpv)
          have hzl : (List.zipWith (fun a b => a - b) sps pvs).length = n := by
            rw [List.length_zipWith, hsl, hpl, Nat.min_self]
          dsimp only at he
          rcases List.mem_cons.mp he with h1 | h1
          · rw [h1]
            simpa [colLen] using hzl
          · have h2 : e = (anomCol sp,
                ColData.bcol ((List.zipWith (fun a b => a - b) sps pvs).map
                  (anomalyFlag k (seriesMean (List.zipWith (fun a b => a - b) sps pvs))
                    (sampleVar (List.zipWith (fun a b => a - b) sps pvs))))) := by
              simpa using h1
            rw [h2]
            simpa [colLen] using hzl

/-- Entrywise description of the error column values. -/
theorem zipWith_sub_getElem : ∀ (a b : List ℚ) (i : Nat) (e : ℚ),
    (List.zipWith (fun x y => x - y) a b)[i]? = some e →
    ∃ x y, a[i]? = some x ∧ b[i]? = some y ∧ e = x - y
  | [], _, _, _, h => by simp at h
  | _ :: _, [], _, _, h => by simp at h
  | a :: as, b :: bs, 0, e, h => by
    rw [List.zipWith_cons_cons, List.getElem?_cons_zero] at h
    have he : a - b = e := by injection h
    exact ⟨a, b, List.getElem?_cons_zero, List.getElem?_cons_zero, he.symm⟩
  | a :: as, b :: bs, i + 1, e, h => by
    rw [List.zipWith_cons_cons, List.getElem?_cons_succ] at h
    obtain ⟨x, y, hx, hy, he⟩ := zipWith_sub_getElem as bs i e h
    refine ⟨x, y, ?_, ?_, he⟩
    · rw [List.getElem?_cons_succ]
      exact hx
    · rw [List.getElem?_cons_succ]
      exact hy

/-- C9: anomaly detection is a pure frame extension.  Under pairwise
distinct setpoint tags, fresh output column names and a uniform row count
n, detect_anomalies returns the input frame with exactly the error and
anomaly columns of each present pair appended (computed from the input
frame), it never alters an existing column (Timestamp, SetPoint, Actual or
any other), and every column of the result still has n rows. -/
theorem detect_anomalies_frame (k : ℚ) (pairs : List (String × String))
    (df : DataFrame) (n : Nat)
    (hpw : List.Pairwise (fun p q => p.1 ≠ q.1) pairs)
    (hfr : ∀ p ∈ pairs, hasCol df (errCol p.1) = false ∧ hasCol df (anomCol p.1) = false)
    (hlen : ∀ c ∈ df, colLen c.2 = n) :
    (detect_anomalies k pairs df).1 =
      df ++ (pairs.map (fun p => pairNewCols k df p.1 p.2)).flatten ∧
      (∀ name, hasCol df name = true →
        getCol (detect_anomalies k pairs df).1 name = getCol df name) ∧
      (∀ c ∈ (detect_anomalies k pairs df).1, colLen c.2 = n) := by
  have hframe := detect_frame_aux k pairs df hpw hfr
  refine ⟨hframe, ?_, ?_⟩
  · intro name hname
    rw [hframe]
    exact getCol_append_of_hasCol _ hname
  · intro c hc
    rw [hframe] at hc
    rcases List.mem_append.mp hc with h1 | h1
    · exact hlen c h1
    · obtain ⟨chunk, hchunk, hcc⟩ := List.mem_flatten.mp h1
      obtain ⟨q, _, rfl⟩ := List.mem_map.mp hchunk
      exact pairNewCols_len k df q.1 q.2 n hlen c hcc

/-- Witness for C9 at a concrete frame with one tag pair. -/
theorem detect_anomalies_frame_check :
    (∀ c ∈ ([("Timestamp", ColData.fcol [0]), (spCol "T", ColData.fcol [5]),
        (pvCol "P", ColData.fcol [4])] : DataFrame), colLen c.2 = 1) ∧
      (detect_anomalies 3 [("T", "P")]
          [("Timestamp", ColData.fcol [0]), (spCol "T", ColData.fcol [5]),
            (pvCol "P", ColData.fcol [4])]).1 =
        [("Timestamp", ColData.fcol [0]), (spCol "T", ColData.fcol [5]),
          (pvCol "P", ColData.fcol [4])] ++
          (([("T", "P")].map (fun p => pairNewCols 3
            [("Timestamp", ColData.fcol [0]), (spCol "T", ColData.fcol [5]),
              (pvCol "P", ColData.fcol [4])] p.1 p.2)).flatten) :=
  ⟨by decide,
    (detect_anomalies_frame 3 [("T", "P")]
      [("Timestamp", ColData.fcol [0]), (spCol "T", ColData.fcol [5]),
        (pvCol "P", ColData.fcol [4])] 1
      (List.pairwise_singleton _ _) (by decide) (by decide)).1⟩

/-- C2: in the detector's output, the error column of each configured,
present tag pair equals the element-wise difference of the SetPoint and
Actual columns: row i of the error column is setpoint i minus actual i. -/
theorem error_col_eq_setpoint_sub_actual (k : ℚ) (pairs : List (String × String))
    (df : DataFrame) (sp pv : String) (sps pvs : List ℚ)
    (hmem : (sp, pv) ∈ pairs)
    (hpw : List.Pairwise (fun p q => p.1 ≠ q.1) pairs)
    (hfr : ∀ p ∈ pairs, hasCol df (errCol p.1) = false ∧ hasCol df (anomCol p.1) = false)
    (hsp : getCol df (spCol sp) = some (.fcol sps))
    (hpv : getCol df (pvCol pv) = some (.fcol pvs)) :
    getCol (detect_anomalies k pairs df).1 (errCol sp) =
      some (.fcol (List.zipWith (fun a b => a - b) sps pvs)) ∧
      ∀ (i : Nat) (e : ℚ), (List.zipWith (fun a b => a - b) sps pvs)[i]? = some e →
        ∃ x y, sps[i]? = some x ∧ pvs[i]? = some y ∧ e = x - y := by
  constructor
  · rw [detect_frame_aux k pairs df hpw hfr,
      getCol_append_of_not_hasCol _ (hfr (sp, pv) hmem).1]
    exact (getCol_flatten_pair k df pairs sp pv sps pvs hmem hpw hsp hpv).1
  · exact fun i e h => zipWith_sub_getElem sps pvs i e h

/-- Witness for C2: the single-row error column is 5 − 4. -/
theorem error_col_eq_setpoint_sub_actual_check :
    getCol (detect_anomalies 3 [("T", "P")]
        [("Timestamp", ColData.fcol [0]), (spCol "T", ColData.fcol [5]),
          (pvCol "P", ColData.fcol [4])]).1 (errCol "T") =
      some (.fcol (List.zipWith (fun a b => a - b) [5] [4])) :=
  (error_col_eq_setpoint_sub_actual 3 [("T", "P")]
    [("Timestamp", ColData.fcol [0]), (spCol "T", ColData.fcol [5]),
      (pvCol "P", ColData.fcol [4])] "T" "P" [5] [4]
    (by decide) (List.pairwise_singleton _ _) (by decide) (by decide) (by decide)).1

/-- C1: in the detector's output, the anomaly column of each configured,
present tag pair holds exactly the flags of the threshold rule: a row is
flagged iff |error − mean| > k · std, where mean and std are the sample
mean and (ddof 1) standard deviation of the error column — std rendered
as the real square root of the sample variance — and for error columns
with fewer than 2 rows every flag is false (NaN std, no division by zero
and no exception). -/
theorem anomaly_flag_iff_threshold (k : ℚ) (pairs : List (String × String))
    (df : DataFrame) (sp pv : String) (sps pvs : List ℚ) (hk : 0 ≤ k)
    (hmem : (sp, pv) ∈ pairs)
    (hpw : List.Pairwise (fun p q => p.1 ≠ q.1) pairs)
    (hfr : ∀ p ∈ pairs, hasCol df (errCol p.1) = false ∧ hasCol df (anomCol p.1) = false)
    (hsp : getCol df (spCol sp) = some (.fcol sps))
    (hpv : getCol df (pvCol pv) = some (.fcol pvs)) :
    getCol (detect_anomalies k pairs df).1 (anomCol sp) =
      some (.bcol ((List.zipWith (fun a b => a - b) sps pvs).map
        (anomalyFlag k (seriesMean (List.zipWith (fun a b => a - b) sps pvs))
          (sampleVar (List.zipWith (fun a b => a - b) sps pvs))))) ∧
      (2 ≤ (List.zipWith (fun a b => a - b) sps pvs).length → ∀ e : ℚ,
        (anomalyFlag k (seriesMean (List.zipWith (fun a b => a - b) sps pvs))
            (sampleVar (List.zipWith (fun a b => a - b) sps pvs)) e = true ↔
          (k : ℝ) * Real.sqrt
              (((sampleVar (List.zipWith (fun a b => a - b) sps pvs)).getD 0 : ℚ) : ℝ) <
            |(e : ℝ) - ((seriesMean (List.zipWith (fun a b => a - b) sps pvs) : ℚ) : ℝ)|)) ∧
      ((List.zipWith (fun a b => a - b) sps pvs).length < 2 → ∀ e : ℚ,
        anomalyFlag k (seriesMean (List.zipWith (fun a b => a - b) sps pvs))
          (sampleVar (List.zipWith (fun a b => a - b) sps pvs)) e = false) := by
  refine ⟨?_, ?_, ?_⟩
  · rw [detect_frame_aux k pairs df hpw hfr,
      getCol_append_of_not_hasCol _ (hfr (sp, pv) hmem).2]
    exact (getCol_flatten_pair k df pairs sp pv sps pvs hmem hpw hsp hpv).2
  · exact fun h2 e => anomaly_iff k hk (List.zipWith (fun a b => a - b) sps pvs) h2 e
  · exact fun hlt e => anomaly_flag_short k (List.zipWith (fun a b => a - b) sps pvs) hlt e

/-- Witness for C1 at a two-row frame, instantiated at the error value 1. -/
theorem anomaly_flag_iff_threshold_check :
    (anomalyFlag 3 (seriesMean (List.zipWith (fun a b => (a : ℚ) - b) [5, 5] [4, 3]))
        (sampleVar (List.zipWith (fun a b => (a : ℚ) - b) [5, 5] [4, 3])) 1 = true ↔
      ((3 : ℚ) : ℝ) * Real.sqrt
          (((sampleVar (List.zipWith (fun a b => (a : ℚ) - b) [5, 5] [4, 3])).getD 0 : ℚ) : ℝ) <
        |(((1 : ℚ)) : ℝ) -
          ((seriesMean (List.zipWith (fun a b => (a : ℚ) - b) [5, 5] [4, 3]) : ℚ) : ℝ)|) :=
  (anomaly_flag_iff_threshold 3 [("T", "P")]
    [(spCol "T", ColData.fcol [5, 5]), (pvCol "P", ColData.fcol [4, 3])]
    "T" "P" [5, 5] [4, 3] (by decide) (by decide) (List.pairwise_singleton _ _)
    (by decide) (by decide) (by decide)).2.1 (by decide) 1
